import Mathlib

/-!
Shallow embedding of `nup_validator.py` (function `validate_nup`) and proofs
about it.  Strings are modelled as `List Char`; the digit class of the
regular-expression atom `\d` and of single-character `int` parsing is the
Unicode `Nd` category; every uncaught exception path of the source surfaces
as an `Except.error`.
-/

namespace NUP

/-- Start code points of the Unicode `Nd` (decimal digit) ranges: each range
holds the digits 0–9 of one script.  This is the digit class used both by the
regular-expression class `\d` (Unicode mode) and by `int` on digit
characters in the source language. -/
def ndStarts : List Nat :=
  [0x30, 0x660, 0x6F0, 0x7C0, 0x966, 0x9E6, 0xA66, 0xAE6, 0xB66, 0xBE6,
   0xC66, 0xCE6, 0xD66, 0xDE6, 0xE50, 0xED0, 0xF20, 0x1040, 0x1090, 0x17E0,
   0x1810, 0x1946, 0x19D0, 0x1A80, 0x1A90, 0x1B50, 0x1BB0, 0x1C40, 0x1C50,
   0xA620, 0xA8D0, 0xA900, 0xA9D0, 0xA9F0, 0xAA50, 0xABF0, 0xFF10,
   0x104A0, 0x10D30, 0x11066, 0x110F0, 0x11136, 0x111D0, 0x112F0, 0x11450,
   0x114D0, 0x11650, 0x116C0, 0x11730, 0x118E0, 0x11950, 0x11C50, 0x11D50,
   0x11DA0, 0x11F50, 0x16A60, 0x16AC0, 0x16B50, 0x1D7CE, 0x1D7D8, 0x1D7E2,
   0x1D7EC, 0x1D7F6, 0x1E140, 0x1E2F0, 0x1E4F0, 0x1E950, 0x1FBF0]

/-- Decimal value of a character, when it is a Unicode decimal digit;
`none` otherwise. -/
def pyDigitVal? (c : Char) : Option Nat :=
  (ndStarts.find? (fun s => decide (s ≤ c.toNat ∧ c.toNat < s + 10))).map
    (fun s => c.toNat - s)

/-- Decimal value of a digit character (default 0). -/
def pyDigitValD (c : Char) : Nat := (pyDigitVal? c).getD 0

/-- The character class `\d` of the format pattern. -/
def isPyDigit (c : Char) : Bool := (pyDigitVal? c).isSome

/-- Numeric value of a digit string (base 10, most significant digit first). -/
def digitsToNat (l : List Char) : Nat := l.foldl (fun a c => 10 * a + pyDigitValD c) 0

/-- `int` applied to a string of decimal digit characters; `none` models a
`ValueError`.  At every call site of the source the argument is a nonempty
all-digit string, so the extra forms `int` accepts (signs, surrounding
whitespace, underscores) never arise. -/
def pyIntNd? (s : List Char) : Option Nat :=
  if s.isEmpty then none
  else if s.all isPyDigit then some (digitsToNat s) else none

/-- `str.split(sep)` for a one-character separator. -/
def pySplit (sep : Char) : List Char → List (List Char)
  | [] => [[]]
  | c :: rest =>
    if c = sep then [] :: pySplit sep rest
    else
      match pySplit sep rest with
      | [] => [[c]]
      | g :: gs => (c :: g) :: gs

/-- Negative indexing `s[-n]` (for `n ≥ 1`); `none` models an `IndexError`. -/
def pyGetNeg (l : List Char) (n : Nat) : Option Char := l.reverse.get? (n - 1)

/-- The three structural separators removed by the chained `replace` calls. -/
def isSep (c : Char) : Bool := decide (c = '.' ∨ c = '/' ∨ c = '-')

/-- The sentinel `"S/N"`. -/
def snLit : List Char := ['S', '/', 'N']

/-- Consume exactly `n` decimal-digit characters (the regex atom `\d{n}`). -/
def digitsN : Nat → List Char → Option (List Char)
  | 0, s => some s
  | _ + 1, [] => none
  | n + 1, c :: s => if isPyDigit c then digitsN n s else none

/-- Consume one literal character. -/
def charTok (tok : Char) : List Char → Option (List Char)
  | [] => none
  | c :: s => if c = tok then some s else none

/-- The anchor `$` under `re.match`: end of string, or just before a newline
that is the final character. -/
def endDollar (s : List Char) : Bool := decide (s = [] ∨ s = ['\n'])

/-- The suffix `-\d{2}$` of the format pattern. -/
def tailTwo (s : List Char) : Bool :=
  match charTok '-' s with
  | none => false
  | some s1 =>
    match digitsN 2 s1 with
    | none => false
    | some s2 => endDollar s2

/-- `re.match` of the anchored pattern `\d{5}\.\d{6}/(\d{4}|\d{2})-\d{2}$`,
with the alternation tried 4-digit branch first, as backtracking does. -/
def nupFormatMatch (s : List Char) : Bool :=
  match digitsN 5 s with
  | none => false
  | some s1 =>
    match charTok '.' s1 with
    | none => false
    | some s2 =>
      match digitsN 6 s2 with
      | none => false
      | some s3 =>
        match charTok '/' s3 with
        | none => false
        | some s4 =>
          (match digitsN 4 s4 with
           | none => false
           | some s5 => tailTwo s5) ||
          (match digitsN 2 s4 with
           | none => false
           | some s5 => tailTwo s5)

/-- `list(range(2, 17))`, the DV1 weights. -/
def weights_dv1 : List Nat := List.range' 2 15

/-- `list(range(2, 18))`, the DV2 weights. -/
def weights_dv2 : List Nat := List.range' 2 16

/-- `sum(int(digit) * weight for digit, weight in zip(digits, weights))`;
`none` models the `ValueError` raised on a non-digit character. -/
def weightedSum? : List Char → List Nat → Option Nat
  | c :: cs, w :: ws =>
    match pyDigitVal? c with
    | none => none
    | some d =>
      match weightedSum? cs ws with
      | none => none
      | some rest => some (d * w + rest)
  | _, _ => some 0

/-- The modulo-11 candidate rule shared by both check digits: remainder 0
gives 1, otherwise 11 − remainder, and a candidate ≥ 10 becomes 0. -/
def dvCandidate (weightedSum : Nat) : Nat :=
  let remainder := weightedSum % 11
  let cand := if remainder = 0 then 1 else 11 - remainder
  if cand ≥ 10 then 0 else cand

/-- Uncaught exceptions the source could in principle raise. -/
inductive PyErr where
  | indexError : PyErr
  | valueError : PyErr
deriving DecidableEq

/-- Payload construction (the `nup_treaty` / `nup_year` block of the source):
strip separators, drop the two check digits, and abbreviate a 4-digit year
`≤ 1999` to its last two digits. -/
def computeTreaty (number : List Char) : Except PyErr (List Char) :=
  let stripped := number.filter (fun c => !isSep c)
  let nup_treaty := stripped.take (stripped.length - 2)
  match (pySplit '/' number).get? 1 with
  | none => Except.error PyErr.indexError
  | some afterSlash =>
    let nup_year := (pySplit '-' afterSlash).headD []
    if nup_year.length = 4 then
      match pyIntNd? nup_year with
      | none => Except.error PyErr.valueError
      | some y =>
        if y ≤ 1999 then
          Except.ok (nup_treaty.take (nup_treaty.length - 4) ++
            nup_year.drop (nup_year.length - 2))
        else Except.ok nup_treaty
    else Except.ok nup_treaty

/-- The two weighted-sum checks of the source: compute both candidate check
digits over the reversed payload and compare them with the extracted pair. -/
def checkDigits (nup_treaty : List Char) (dv1 dv2 : Nat) : Except PyErr Bool :=
  let nup_inverted := nup_treaty.reverse
  match weightedSum? nup_inverted weights_dv1 with
  | none => Except.error PyErr.valueError
  | some weighted_sum_dv1 =>
    let dv1_result := dvCandidate weighted_sum_dv1
    if dv1_result ≠ dv1 then Except.ok false
    else
      match weightedSum? (Char.ofNat (48 + dv1_result) :: nup_inverted) weights_dv2 with
      | none => Except.error PyErr.valueError
      | some weighted_sum_dv2 =>
        let dv2_result := dvCandidate weighted_sum_dv2
        if dv2_result ≠ dv2 then Except.ok false
        else Except.ok true

/-- `validate_nup` from `nup_validator.py`, over `List Char`.  The caught
`ValueError` of the check-digit extraction yields `Except.ok false`;
uncaught exception paths yield `Except.error`. -/
def validate_nup (number : List Char) : Except PyErr Bool :=
  if number = snLit then Except.ok true
  else if ¬ ('.' ∈ number ∨ '/' ∈ number ∨ '-' ∈ number) then Except.ok false
  else if '/' ∈ number ∧ ((pySplit '/' number).headD []).length < 11 then Except.ok false
  else if nupFormatMatch number then
    match pyGetNeg number 2 with
    | none => Except.error PyErr.indexError
    | some c1 =>
      match pyDigitVal? c1 with
      | none => Except.ok false
      | some dv1 =>
        match pyGetNeg number 1 with
        | none => Except.error PyErr.indexError
        | some c2 =>
          match pyDigitVal? c2 with
          | none => Except.ok false
          | some dv2 =>
            match computeTreaty number with
            | Except.error e => Except.error e
            | Except.ok nup_treaty => checkDigits nup_treaty dv1 dv2
  else Except.ok false

/-- `validate_nup` on Lean strings. -/
def validate (s : String) : Except PyErr Bool := validate_nup s.data

/-- `validate_nup` with the step-3 prefix-length pre-check removed and
everything else unchanged. -/
def validate_nup_no_precheck (number : List Char) : Except PyErr Bool :=
  if number = snLit then Except.ok true
  else if ¬ ('.' ∈ number ∨ '/' ∈ number ∨ '-' ∈ number) then Except.ok false
  else if nupFormatMatch number then
    match pyGetNeg number 2 with
    | none => Except.error PyErr.indexError
    | some c1 =>
      match pyDigitVal? c1 with
      | none => Except.ok false
      | some dv1 =>
        match pyGetNeg number 1 with
        | none => Except.error PyErr.indexError
        | some c2 =>
          match pyDigitVal? c2 with
          | none => Except.ok false
          | some dv2 =>
            match computeTreaty number with
            | Except.error e => Except.error e
            | Except.ok nup_treaty => checkDigits nup_treaty dv1 dv2
  else Except.ok false

/-! ### The claim-side formulation of the checksum -/

/-- Weighted sum of the claim's description: digits weighted `k, k+1, k+2, …`
in order. -/
def specWSum : List Nat → Nat → Nat
  | [], _ => 0
  | d :: ds, k => d * k + specWSum ds (k + 1)

/-- First check digit of the claim: reverse the payload, weight from 2
upwards starting at the rightmost digit, and apply the modulo-11 rule. -/
def specDV1 (payload : List Nat) : Nat := dvCandidate (specWSum payload.reverse 2)

/-- Second check digit of the claim: prepend `dv1` to the reversed payload
and weight from 2 upwards again. -/
def specDV2 (payload : List Nat) : Nat :=
  dvCandidate (specWSum (specDV1 payload :: payload.reverse) 2)

/-- Year normalization of the claim: a 4-digit year of numeric value ≤ 1999
is abbreviated to its last two digits. -/
def specNormYear (y : List Char) : List Char :=
  if y.length = 4 ∧ digitsToNat y ≤ 1999 then y.drop (y.length - 2) else y

/-- The payload digit values of the claim: unit code, sequence number and
(possibly abbreviated) year, separators and check digits gone. -/
def specPayload (u q y : List Char) : List Nat :=
  (u ++ q ++ specNormYear y).map pyDigitValD

/-- The claim's characterisation of a valid identifier other than the
sentinel: full-format decomposition plus both check-digit equalities. -/
def specValid (s : List Char) : Prop :=
  ∃ u q y : List Char, ∃ d1 d2 : Char,
    s = u ++ '.' :: (q ++ '/' :: (y ++ '-' :: d1 :: d2 :: [])) ∧
    u.length = 5 ∧ q.length = 6 ∧ (y.length = 4 ∨ y.length = 2) ∧
    (∀ c ∈ u, isPyDigit c) ∧ (∀ c ∈ q, isPyDigit c) ∧ (∀ c ∈ y, isPyDigit c) ∧
    isPyDigit d1 ∧ isPyDigit d2 ∧
    pyDigitValD d1 = specDV1 (specPayload u q y) ∧
    pyDigitValD d2 = specDV2 (specPayload u q y)

/-- Full-format decomposition with nothing after the check-digit pair. -/
def ExactFormat (s : List Char) : Prop :=
  ∃ u q y : List Char, ∃ d1 d2 : Char,
    s = u ++ '.' :: (q ++ '/' :: (y ++ '-' :: d1 :: d2 :: [])) ∧
    u.length = 5 ∧ q.length = 6 ∧ (y.length = 4 ∨ y.length = 2) ∧
    (∀ c ∈ u, isPyDigit c) ∧ (∀ c ∈ q, isPyDigit c) ∧ (∀ c ∈ y, isPyDigit c) ∧
    isPyDigit d1 ∧ isPyDigit d2

/-! ### Facts about the digit class -/

lemma pyDigitVal?_eq_some {c : Char} (h : isPyDigit c = true) :
    pyDigitVal? c = some (pyDigitValD c) := by
  unfold isPyDigit at h
  cases hv : pyDigitVal? c with
  | none => rw [hv] at h; simp at h
  | some v => simp [pyDigitValD, hv]

lemma ndStarts_ge : ∀ s ∈ ndStarts, 48 ≤ s := by decide

lemma isPyDigit_ge48 {c : Char} (h : isPyDigit c = true) : 48 ≤ c.toNat := by
  unfold isPyDigit pyDigitVal? at h
  cases hf : ndStarts.find? (fun s => decide (s ≤ c.toNat ∧ c.toNat < s + 10)) with
  | none => rw [hf] at h; simp at h
  | some s =>
    have hp := List.find?_some hf
    have hm := List.mem_of_find?_eq_some hf
    simp only [decide_eq_true_eq] at hp
    exact le_trans (ndStarts_ge s hm) hp.1

lemma isPyDigit_ne {c : Char} (h : isPyDigit c = true) :
    c ≠ '.' ∧ c ≠ '/' ∧ c ≠ '-' ∧ c ≠ '\n' := by
  have h48 := isPyDigit_ge48 h
  refine ⟨?_, ?_, ?_, ?_⟩ <;> rintro rfl <;> exact absurd h48 (by decide)

lemma isPyDigit_not_sep {c : Char} (h : isPyDigit c = true) : isSep c = false := by
  obtain ⟨h1, h2, h3, _⟩ := isPyDigit_ne h
  simp [isSep, h1, h2, h3]

lemma dvCandidate_le_nine (w : Nat) : dvCandidate w ≤ 9 := by
  have hlt : w % 11 < 11 := Nat.mod_lt _ (by norm_num)
  show (if (if w % 11 = 0 then 1 else 11 - w % 11) ≥ 10 then 0
        else (if w % 11 = 0 then 1 else 11 - w % 11)) ≤ 9
  split_ifs <;> omega

lemma isPyDigit_ofNat {d : Nat} (hd : d ≤ 9) : isPyDigit (Char.ofNat (48 + d)) = true := by
  interval_cases d <;> decide

lemma pyDigitValD_ofNat {d : Nat} (hd : d ≤ 9) : pyDigitValD (Char.ofNat (48 + d)) = d := by
  interval_cases d <;> decide

/-! ### Characterisation of the format matcher -/

lemma digitsN_append {p : List Char} (t : List Char) (hd : ∀ c ∈ p, isPyDigit c) :
    digitsN p.length (p ++ t) = some t := by
  induction p with
  | nil => rfl
  | cons c p ih =>
    simp only [List.length_cons, List.cons_append, digitsN]
    rw [if_pos (hd c (List.mem_cons_self c p))]
    exact ih (fun x hx => hd x (List.mem_cons_of_mem c hx))

lemma digitsN_eq_some {n : Nat} {s t : List Char} (h : digitsN n s = some t) :
    ∃ p, s = p ++ t ∧ p.length = n ∧ ∀ c ∈ p, isPyDigit c := by
  induction n generalizing s with
  | zero =>
    simp only [digitsN, Option.some.injEq] at h
    exact ⟨[], by simp [h], rfl, by simp⟩
  | succ n ih =>
    cases s with
    | nil => simp [digitsN] at h
    | cons c s =>
      simp only [digitsN] at h
      by_cases hc : isPyDigit c
      · rw [if_pos hc] at h
        obtain ⟨p, rfl, hlen, hall⟩ := ih h
        refine ⟨c :: p, rfl, by simp [hlen], ?_⟩
        intro x hx
        rcases List.mem_cons.mp hx with rfl | hx
        · exact hc
        · exact hall x hx
      · rw [if_neg hc] at h; exact absurd h (by simp)

lemma charTok_eq_some {tok : Char} {s t : List Char} :
    charTok tok s = some t ↔ s = tok :: t := by
  cases s with
  | nil => simp [charTok]
  | cons c s =>
    simp only [charTok]
    by_cases hc : c = tok
    · subst hc; simp
    · simp [hc, fun h : tok = c => hc h.symm]

@[simp] lemma charTok_cons_self (tok : Char) (t : List Char) :
    charTok tok (tok :: t) = some t := by
  simp [charTok]

lemma tailTwo_iff {s : List Char} :
    tailTwo s = true ↔
      ∃ d1 d2 : Char, ∃ r : List Char,
        s = '-' :: d1 :: d2 :: r ∧ isPyDigit d1 ∧ isPyDigit d2 ∧
        (r = [] ∨ r = ['\n']) := by
  constructor
  · intro h
    unfold tailTwo at h
    split at h
    · simp at h
    · rename_i s1 hc
      split at h
      · simp at h
      · rename_i s2 hn
        obtain ⟨p, rfl, hlen, hall⟩ := digitsN_eq_some hn
        obtain ⟨d1, d2, rfl⟩ := List.length_eq_two.mp hlen
        refine ⟨d1, d2, s2, ?_, hall d1 (by simp), hall d2 (by simp), ?_⟩
        · rw [charTok_eq_some.mp hc]; rfl
        · simpa [endDollar] using h
  · rintro ⟨d1, d2, r, rfl, hd1, hd2, hr⟩
    have h2 : digitsN 2 (d1 :: d2 :: r) = some r := by
      simpa using digitsN_append (p := [d1, d2]) r (by simp [hd1, hd2])
    simp only [tailTwo, charTok_cons_self, h2]
    rcases hr with rfl | rfl <;> rfl

lemma nupFormatMatch_iff {s : List Char} :
    nupFormatMatch s = true ↔
      ∃ u q y : List Char, ∃ d1 d2 : Char, ∃ r : List Char,
        s = u ++ '.' :: (q ++ '/' :: (y ++ '-' :: d1 :: d2 :: r)) ∧
        u.length = 5 ∧ q.length = 6 ∧ (y.length = 4 ∨ y.length = 2) ∧
        (∀ c ∈ u, isPyDigit c) ∧ (∀ c ∈ q, isPyDigit c) ∧ (∀ c ∈ y, isPyDigit c) ∧
        isPyDigit d1 ∧ isPyDigit d2 ∧ (r = [] ∨ r = ['\n']) := by
  constructor
  · intro h
    unfold nupFormatMatch at h
    split at h
    · simp at h
    · rename_i s1 h5
      split at h
      · simp at h
      · rename_i s2 hc1
        split at h
        · simp at h
        · rename_i s3 h6
          split at h
          · simp at h
          · rename_i s4 hc2
            obtain ⟨u, rfl, hu5, hud⟩ := digitsN_eq_some h5
            obtain rfl := charTok_eq_some.mp hc1
            obtain ⟨q, rfl, hq6, hqd⟩ := digitsN_eq_some h6
            obtain rfl := charTok_eq_some.mp hc2
            rcases Bool.or_eq_true _ _ |>.mp h with h4 | h2
            · split at h4
              · simp at h4
              · rename_i s5 hd4
                obtain ⟨y, rfl, hy4, hyd⟩ := digitsN_eq_some hd4
                obtain ⟨d1, d2, r, rfl, hdd1, hdd2, hr⟩ := tailTwo_iff.mp h4
                exact ⟨u, q, y, d1, d2, r, rfl, hu5, hq6, Or.inl hy4,
                  hud, hqd, hyd, hdd1, hdd2, hr⟩
            · split at h2
              · simp at h2
              · rename_i s5 hd2'
                obtain ⟨y, rfl, hy2, hyd⟩ := digitsN_eq_some hd2'
                obtain ⟨d1, d2, r, rfl, hdd1, hdd2, hr⟩ := tailTwo_iff.mp h2
                exact ⟨u, q, y, d1, d2, r, rfl, hu5, hq6, Or.inr hy2,
                  hud, hqd, hyd, hdd1, hdd2, hr⟩
  · rintro ⟨u, q, y, d1, d2, r, rfl, hu5, hq6, hy, hud, hqd, hyd, hd1, hd2, hr⟩
    have e5 : digitsN 5 (u ++ '.' :: (q ++ '/' :: (y ++ '-' :: d1 :: d2 :: r))) =
        some ('.' :: (q ++ '/' :: (y ++ '-' :: d1 :: d2 :: r))) := by
      rw [← hu5]; exact digitsN_append _ hud
    have e6 : digitsN 6 (q ++ '/' :: (y ++ '-' :: d1 :: d2 :: r)) =
        some ('/' :: (y ++ '-' :: d1 :: d2 :: r)) := by
      rw [← hq6]; exact digitsN_append _ hqd
    have ht : tailTwo ('-' :: d1 :: d2 :: r) = true :=
      tailTwo_iff.mpr ⟨d1, d2, r, rfl, hd1, hd2, hr⟩
    rcases hy with hy4 | hy2
    · have e4 : digitsN 4 (y ++ '-' :: d1 :: d2 :: r) =
          some ('-' :: d1 :: d2 :: r) := by
        rw [← hy4]; exact digitsN_append _ hyd
      simp only [nupFormatMatch, e5, charTok_cons_self, e6, e4, ht, Bool.true_or]
    · have e2 : digitsN 2 (y ++ '-' :: d1 :: d2 :: r) =
          some ('-' :: d1 :: d2 :: r) := by
        rw [← hy2]; exact digitsN_append _ hyd
      simp only [nupFormatMatch, e5, charTok_cons_self, e6, e2, ht, Bool.or_true]

/-! ### Facts about `pySplit` -/

lemma pySplit_not_mem {sep : Char} {a : List Char} (h : sep ∉ a) :
    pySplit sep a = [a] := by
  induction a with
  | nil => rfl
  | cons c a ih =>
    have hc : ¬ c = sep := fun e => h (e ▸ List.mem_cons_self c a)
    simp only [pySplit]
    rw [if_neg hc, ih (fun hm => h (List.mem_cons_of_mem c hm))]

lemma pySplit_append {sep : Char} {a : List Char} (b : List Char) (h : sep ∉ a) :
    pySplit sep (a ++ sep :: b) = a :: pySplit sep b := by
  induction a with
  | nil => simp [pySplit]
  | cons c a ih =>
    have hc : ¬ c = sep := fun e => h (e ▸ List.mem_cons_self c a)
    simp only [List.cons_append, pySplit, List.append_eq]
    rw [if_neg hc, ih (fun hm => h (List.mem_cons_of_mem c hm))]

/-! ### Membership helpers -/

lemma slash_not_mem_digits {l : List Char} (hl : ∀ c ∈ l, isPyDigit c) : '/' ∉ l :=
  fun hm => (isPyDigit_ne (hl _ hm)).2.1 rfl

lemma dash_not_mem_digits {l : List Char} (hl : ∀ c ∈ l, isPyDigit c) : '-' ∉ l :=
  fun hm => (isPyDigit_ne (hl _ hm)).2.2.1 rfl

lemma slash_not_mem_head {u q : List Char} (hud : ∀ c ∈ u, isPyDigit c)
    (hqd : ∀ c ∈ q, isPyDigit c) : '/' ∉ u ++ '.' :: q := by
  intro hm
  rcases List.mem_append.mp hm with hm | hm
  · exact slash_not_mem_digits hud hm
  · rcases List.mem_cons.mp hm with he | hm
    · exact absurd he (by decide)
    · exact slash_not_mem_digits hqd hm

lemma slash_not_mem_tail {y r : List Char} {d1 d2 : Char}
    (hyd : ∀ c ∈ y, isPyDigit c) (hd1 : isPyDigit d1) (hd2 : isPyDigit d2)
    (hr : r = [] ∨ r = ['\n']) : '/' ∉ y ++ '-' :: d1 :: d2 :: r := by
  intro hm
  rcases List.mem_append.mp hm with hm | hm
  · exact slash_not_mem_digits hyd hm
  · rcases List.mem_cons.mp hm with he | hm
    · exact absurd he (by decide)
    · rcases List.mem_cons.mp hm with he | hm
      · exact (isPyDigit_ne hd1).2.1 he.symm
      · rcases List.mem_cons.mp hm with he | hm
        · exact (isPyDigit_ne hd2).2.1 he.symm
        · rcases hr with rfl | rfl
          · simp at hm
          · rcases List.mem_cons.mp hm with he | hm
            · exact absurd he (by decide)
            · simp at hm

lemma dash_not_mem_pair {d1 d2 : Char} (hd1 : isPyDigit d1) (hd2 : isPyDigit d2) :
    '-' ∉ ([d1, d2] : List Char) := by
  intro hm
  rcases List.mem_cons.mp hm with he | hm
  · exact (isPyDigit_ne hd1).2.2.1 he.symm
  · rcases List.mem_cons.mp hm with he | hm
    · exact (isPyDigit_ne hd2).2.2.1 he.symm
    · simp at hm

/-- `str.split` of the decomposed identifier at the forward slash. -/
lemma pySplit_slash (u q t : List Char) (hud : ∀ c ∈ u, isPyDigit c)
    (hqd : ∀ c ∈ q, isPyDigit c) (ht : '/' ∉ t) :
    pySplit '/' (u ++ '.' :: (q ++ '/' :: t)) = [u ++ '.' :: q, t] := by
  have h2 : u ++ '.' :: (q ++ '/' :: t) = (u ++ '.' :: q) ++ '/' :: t := by simp
  rw [h2, pySplit_append _ (slash_not_mem_head hud hqd), pySplit_not_mem ht]

/-! ### Evaluating the weighted sums -/

lemma weightedSum?_range' {ds : List Char} :
    ∀ {k n : Nat}, (∀ c ∈ ds, isPyDigit c) → ds.length ≤ n →
      weightedSum? ds (List.range' k n) = some (specWSum (ds.map pyDigitValD) k) := by
  induction ds with
  | nil =>
    intro k n _ _
    cases n with
    | zero => rfl
    | succ n => rfl
  | cons c cs ih =>
    intro k n hd hlen
    cases n with
    | zero => simp at hlen
    | succ n =>
      rw [List.range'_succ]
      have hc := hd c (List.mem_cons_self c cs)
      have hrest := ih (fun x hx => hd x (List.mem_cons_of_mem c hx))
        (k := k + 1) (n := n) (by simpa using hlen)
      simp only [weightedSum?, pyDigitVal?_eq_some hc, hrest, List.map_cons, specWSum]

/-! ### Evaluating the payload construction -/

lemma specNormYear_digits {y : List Char} (hyd : ∀ c ∈ y, isPyDigit c) :
    ∀ c ∈ specNormYear y, isPyDigit c := by
  intro c hc
  unfold specNormYear at hc
  split at hc
  · exact hyd c (List.drop_subset _ _ hc)
  · exact hyd c hc

lemma specNormYear_length {y : List Char} (hy : y.length = 4 ∨ y.length = 2) :
    (specNormYear y).length = 4 ∨ (specNormYear y).length = 2 := by
  unfold specNormYear
  split
  · rename_i h
    right
    rw [List.length_drop]
    omega
  · exact hy

lemma filter_digits_eq {l : List Char} (hl : ∀ c ∈ l, isPyDigit c) :
    l.filter (fun c => !isSep c) = l :=
  List.filter_eq_self.mpr (fun a ha => by rw [isPyDigit_not_sep (hl a ha)]; rfl)

lemma computeTreaty_decomposed (u q y : List Char) (d1 d2 : Char)
    (hu5 : u.length = 5) (hq6 : q.length = 6) (hy : y.length = 4 ∨ y.length = 2)
    (hud : ∀ c ∈ u, isPyDigit c) (hqd : ∀ c ∈ q, isPyDigit c)
    (hyd : ∀ c ∈ y, isPyDigit c) (hd1 : isPyDigit d1) (hd2 : isPyDigit d2) :
    computeTreaty (u ++ '.' :: (q ++ '/' :: (y ++ '-' :: d1 :: d2 :: []))) =
      Except.ok (u ++ q ++ specNormYear y) := by
  have hb1 : (!isSep d1) = true := by rw [isPyDigit_not_sep hd1]; rfl
  have hb2 : (!isSep d2) = true := by rw [isPyDigit_not_sep hd2]; rfl
  have hfil : (u ++ '.' :: (q ++ '/' :: (y ++ '-' :: d1 :: d2 :: []))).filter
      (fun c => !isSep c) = (u ++ q ++ y) ++ [d1, d2] := by
    have e1 : ('-' :: d1 :: d2 :: []).filter (fun c => !isSep c) = [d1, d2] := by
      rw [List.filter_cons_of_neg (by decide),
        List.filter_cons_of_pos (p := fun c => !isSep c) hb1,
        List.filter_cons_of_pos (p := fun c => !isSep c) hb2]
      rfl
    have e2 : ('/' :: (y ++ '-' :: d1 :: d2 :: [])).filter (fun c => !isSep c) =
        y ++ [d1, d2] := by
      rw [List.filter_cons_of_neg (by decide), List.filter_append,
        filter_digits_eq hyd, e1]
    have e3 : ('.' :: (q ++ '/' :: (y ++ '-' :: d1 :: d2 :: []))).filter
        (fun c => !isSep c) = q ++ (y ++ [d1, d2]) := by
      rw [List.filter_cons_of_neg (by decide), List.filter_append,
        filter_digits_eq hqd, e2]
    rw [List.filter_append, filter_digits_eq hud, e3]
    simp
  have hsplit := pySplit_slash u q (y ++ '-' :: d1 :: d2 :: []) hud hqd
    (slash_not_mem_tail hyd hd1 hd2 (Or.inl rfl))
  have hyear : pySplit '-' (y ++ '-' :: d1 :: d2 :: []) = [y, [d1, d2]] := by
    have : pySplit '-' (y ++ '-' :: ([d1, d2] : List Char)) =
        y :: pySplit '-' [d1, d2] := pySplit_append _ (dash_not_mem_digits hyd)
    rw [this, pySplit_not_mem (dash_not_mem_pair hd1 hd2)]
  have htake : ((u ++ q ++ y) ++ [d1, d2]).take (((u ++ q ++ y) ++ [d1, d2]).length - 2) =
      u ++ q ++ y := by
    have hl : ((u ++ q ++ y) ++ [d1, d2]).length - 2 = (u ++ q ++ y).length := by
      simp only [List.length_append, List.length_cons, List.length_nil]
      omega
    rw [hl, List.take_left]
  unfold computeTreaty
  simp only [hfil, htake, hsplit, List.get?_cons_succ, List.get?_cons_zero, hyear,
    List.headD_cons]
  rcases hy with hy4 | hy2
  · rw [if_pos hy4]
    have hynil : ¬ y = [] := by intro h; rw [h] at hy4; simp at hy4
    have hint : pyIntNd? y = some (digitsToNat y) := by
      unfold pyIntNd?
      rw [if_neg (by simp [List.isEmpty_iff, hynil]), if_pos (List.all_eq_true.mpr hyd)]
    simp only [hint]
    by_cases h1999 : digitsToNat y ≤ 1999
    · rw [if_pos h1999]
      have hl4 : (u ++ q ++ y).length - 4 = (u ++ q).length := by
        simp only [List.length_append, hu5, hq6, hy4]
      have htk : (u ++ q ++ y).take ((u ++ q).length) = u ++ q := List.take_left _ _
      have hnorm : specNormYear y = y.drop (y.length - 2) := by
        unfold specNormYear
        rw [if_pos ⟨hy4, h1999⟩]
      rw [hnorm, hl4, htk]
    · rw [if_neg h1999]
      have hnorm : specNormYear y = y := by
        unfold specNormYear
        rw [if_neg (fun h => h1999 h.2)]
      rw [hnorm]
  · rw [if_neg (by omega : ¬ y.length = 4)]
    have hnorm : specNormYear y = y := by
      unfold specNormYear
      rw [if_neg (fun h => by rw [h.1] at hy2; omega)]
    rw [hnorm]

lemma checkDigits_eval (t : List Char) (htd : ∀ c ∈ t, isPyDigit c)
    (hlen : t.length ≤ 15) (a b : Nat) :
    checkDigits t a b =
      Except.ok (decide (specDV1 (t.map pyDigitValD) = a) &&
                 decide (specDV2 (t.map pyDigitValD) = b)) := by
  have hrd : ∀ c ∈ t.reverse, isPyDigit c := fun c hc => htd c (List.mem_reverse.mp hc)
  have hws1 : weightedSum? t.reverse weights_dv1 =
      some (specWSum ((t.map pyDigitValD).reverse) 2) := by
    show weightedSum? t.reverse (List.range' 2 15) = _
    rw [weightedSum?_range' hrd (by simpa using hlen), List.map_reverse]
  have hdv1eq : dvCandidate (specWSum ((t.map pyDigitValD).reverse) 2) =
      specDV1 (t.map pyDigitValD) := rfl
  have hd9 : specDV1 (t.map pyDigitValD) ≤ 9 := dvCandidate_le_nine _
  have hws2 : weightedSum? (Char.ofNat (48 + specDV1 (t.map pyDigitValD)) :: t.reverse)
      weights_dv2 =
      some (specWSum (specDV1 (t.map pyDigitValD) :: (t.map pyDigitValD).reverse) 2) := by
    have hall : ∀ c ∈ Char.ofNat (48 + specDV1 (t.map pyDigitValD)) :: t.reverse,
        isPyDigit c := by
      intro c hc
      rcases List.mem_cons.mp hc with rfl | hc
      · exact isPyDigit_ofNat hd9
      · exact hrd c hc
    have hlen2 : (Char.ofNat (48 + specDV1 (t.map pyDigitValD)) :: t.reverse).length ≤ 16 := by
      simp only [List.length_cons, List.length_reverse]
      omega
    show weightedSum? _ (List.range' 2 16) = _
    rw [weightedSum?_range' hall hlen2]
    simp only [List.map_cons, pyDigitValD_ofNat hd9, List.map_reverse]
  have hdv2eq : dvCandidate (specWSum
      (specDV1 (t.map pyDigitValD) :: (t.map pyDigitValD).reverse) 2) =
      specDV2 (t.map pyDigitValD) := rfl
  unfold checkDigits
  simp only [hws1, hdv1eq, hws2, hdv2eq]
  by_cases h1 : specDV1 (t.map pyDigitValD) = a
  · rw [if_neg (fun hne => hne h1)]
    by_cases h2 : specDV2 (t.map pyDigitValD) = b
    · rw [if_neg (fun hne => hne h2)]
      simp [h1, h2]
    · rw [if_pos h2]
      simp [h1, h2]
  · rw [if_pos h1]
    simp [h1]

/-! ### Evaluating the whole validator on decomposed inputs -/

lemma validate_of_not_format {s : List Char} (hsn : s ≠ snLit)
    (hf : nupFormatMatch s = false) : validate_nup s = Except.ok false := by
  unfold validate_nup
  rw [if_neg hsn]
  by_cases h1 : ('.' ∈ s ∨ '/' ∈ s ∨ '-' ∈ s)
  · rw [if_neg (not_not_intro h1)]
    by_cases h2 : ('/' ∈ s ∧ ((pySplit '/' s).headD []).length < 11)
    · rw [if_pos h2]
    · rw [if_neg h2, if_neg (by simp [hf])]
  · rw [if_pos h1]

lemma validate_decomposed (u q y : List Char) (d1 d2 : Char)
    (hu5 : u.length = 5) (hq6 : q.length = 6) (hy : y.length = 4 ∨ y.length = 2)
    (hud : ∀ c ∈ u, isPyDigit c) (hqd : ∀ c ∈ q, isPyDigit c)
    (hyd : ∀ c ∈ y, isPyDigit c) (hd1 : isPyDigit d1) (hd2 : isPyDigit d2) :
    validate_nup (u ++ '.' :: (q ++ '/' :: (y ++ '-' :: d1 :: d2 :: []))) =
      Except.ok (decide (specDV1 (specPayload u q y) = pyDigitValD d1) &&
                 decide (specDV2 (specPayload u q y) = pyDigitValD d2)) := by
  have hsn : u ++ '.' :: (q ++ '/' :: (y ++ '-' :: d1 :: d2 :: [])) ≠ snLit := by
    intro h
    have hl := congrArg List.length h
    simp only [snLit, List.length_append, List.length_cons, List.length_nil,
      hu5, hq6] at hl
    omega
  have hdot : '.' ∈ u ++ '.' :: (q ++ '/' :: (y ++ '-' :: d1 :: d2 :: [])) := by simp
  have hsplit := pySplit_slash u q (y ++ '-' :: d1 :: d2 :: []) hud hqd
    (slash_not_mem_tail hyd hd1 hd2 (Or.inl rfl))
  have hpre : ¬ ('/' ∈ u ++ '.' :: (q ++ '/' :: (y ++ '-' :: d1 :: d2 :: [])) ∧
      ((pySplit '/' (u ++ '.' :: (q ++ '/' :: (y ++ '-' :: d1 :: d2 :: [])))).headD
        []).length < 11) := by
    rintro ⟨-, hlt⟩
    rw [hsplit] at hlt
    simp only [List.headD_cons, List.length_append, List.length_cons, hu5, hq6] at hlt
    omega
  have hfmt : nupFormatMatch (u ++ '.' :: (q ++ '/' :: (y ++ '-' :: d1 :: d2 :: []))) =
      true :=
    nupFormatMatch_iff.mpr ⟨u, q, y, d1, d2, [], rfl, hu5, hq6, hy, hud, hqd, hyd,
      hd1, hd2, Or.inl rfl⟩
  have hs3 : u ++ '.' :: (q ++ '/' :: (y ++ '-' :: d1 :: d2 :: [])) =
      (u ++ '.' :: (q ++ '/' :: (y ++ ['-']))) ++ [d1, d2] := by simp
  have hget2 : pyGetNeg (u ++ '.' :: (q ++ '/' :: (y ++ '-' :: d1 :: d2 :: []))) 2 =
      some d1 := by
    unfold pyGetNeg
    rw [hs3, List.reverse_append]
    rfl
  have hget1 : pyGetNeg (u ++ '.' :: (q ++ '/' :: (y ++ '-' :: d1 :: d2 :: []))) 1 =
      some d2 := by
    unfold pyGetNeg
    rw [hs3, List.reverse_append]
    rfl
  have htreaty := computeTreaty_decomposed u q y d1 d2 hu5 hq6 hy hud hqd hyd hd1 hd2
  have htd : ∀ c ∈ u ++ q ++ specNormYear y, isPyDigit c := by
    intro c hc
    rcases List.mem_append.mp hc with hc | hc
    · rcases List.mem_append.mp hc with hc | hc
      · exact hud c hc
      · exact hqd c hc
    · exact specNormYear_digits hyd c hc
  have htl : (u ++ q ++ specNormYear y).length ≤ 15 := by
    rcases specNormYear_length hy with h | h <;>
      simp only [List.length_append, hu5, hq6, h] <;> omega
  unfold validate_nup
  rw [if_neg hsn, if_neg (not_not_intro (Or.inl hdot)), if_neg hpre, if_pos hfmt]
  simp only [hget2, pyDigitVal?_eq_some hd1, hget1, pyDigitVal?_eq_some hd2, htreaty]
  exact checkDigits_eval _ htd htl _ _

lemma validate_newline (u q y : List Char) (d1 d2 : Char)
    (hu5 : u.length = 5) (hq6 : q.length = 6) (hy : y.length = 4 ∨ y.length = 2)
    (hud : ∀ c ∈ u, isPyDigit c) (hqd : ∀ c ∈ q, isPyDigit c)
    (hyd : ∀ c ∈ y, isPyDigit c) (hd1 : isPyDigit d1) (hd2 : isPyDigit d2) :
    validate_nup (u ++ '.' :: (q ++ '/' :: (y ++ '-' :: d1 :: d2 :: '\n' :: []))) =
      Except.ok false := by
  have hsn : u ++ '.' :: (q ++ '/' :: (y ++ '-' :: d1 :: d2 :: '\n' :: [])) ≠ snLit := by
    intro h
    have hl := congrArg List.length h
    simp only [snLit, List.length_append, List.length_cons, List.length_nil,
      hu5, hq6] at hl
    omega
  have hdot : '.' ∈ u ++ '.' :: (q ++ '/' :: (y ++ '-' :: d1 :: d2 :: '\n' :: [])) := by
    simp
  have hsplit := pySplit_slash u q (y ++ '-' :: d1 :: d2 :: '\n' :: []) hud hqd
    (slash_not_mem_tail hyd hd1 hd2 (Or.inr rfl))
  have hpre : ¬ ('/' ∈ u ++ '.' :: (q ++ '/' :: (y ++ '-' :: d1 :: d2 :: '\n' :: [])) ∧
      ((pySplit '/' (u ++ '.' :: (q ++ '/' :: (y ++ '-' :: d1 :: d2 :: '\n' ::
        [])))).headD []).length < 11) := by
    rintro ⟨-, hlt⟩
    rw [hsplit] at hlt
    simp only [List.headD_cons, List.length_append, List.length_cons, hu5, hq6] at hlt
    omega
  have hfmt : nupFormatMatch (u ++ '.' :: (q ++ '/' :: (y ++ '-' :: d1 :: d2 :: '\n' ::
      []))) = true :=
    nupFormatMatch_iff.mpr ⟨u, q, y, d1, d2, ['\n'], rfl, hu5, hq6, hy, hud, hqd, hyd,
      hd1, hd2, Or.inr rfl⟩
  have hs3 : u ++ '.' :: (q ++ '/' :: (y ++ '-' :: d1 :: d2 :: '\n' :: [])) =
      (u ++ '.' :: (q ++ '/' :: (y ++ ['-']))) ++ [d1, d2, '\n'] := by simp
  have hget2 : pyGetNeg (u ++ '.' :: (q ++ '/' :: (y ++ '-' :: d1 :: d2 :: '\n' ::
      []))) 2 = some d2 := by
    unfold pyGetNeg
    rw [hs3, List.reverse_append]
    rfl
  have hget1 : pyGetNeg (u ++ '.' :: (q ++ '/' :: (y ++ '-' :: d1 :: d2 :: '\n' ::
      []))) 1 = some '\n' := by
    unfold pyGetNeg
    rw [hs3, List.reverse_append]
    rfl
  unfold validate_nup
  rw [if_neg hsn, if_neg (not_not_intro (Or.inl hdot)), if_neg hpre, if_pos hfmt]
  simp only [hget2, pyDigitVal?_eq_some hd2, hget1]
  rfl

/-! ### Shared consequences of a `true` verdict -/

lemma spec_of_validate_true {s : List Char} (h : validate_nup s = Except.ok true) :
    s = snLit ∨ specValid s := by
  by_cases hsn : s = snLit
  · exact Or.inl hsn
  · right
    cases hfb : nupFormatMatch s with
    | false => rw [validate_of_not_format hsn hfb] at h; exact absurd h (by simp)
    | true =>
      obtain ⟨u, q, y, d1, d2, r, hs, hu5, hq6, hy, hud, hqd, hyd, hd1, hd2, hr⟩ :=
        nupFormatMatch_iff.mp hfb
      rcases hr with rfl | rfl
      · rw [hs, validate_decomposed u q y d1 d2 hu5 hq6 hy hud hqd hyd hd1 hd2] at h
        simp only [Except.ok.injEq, Bool.and_eq_true, decide_eq_true_eq] at h
        exact ⟨u, q, y, d1, d2, hs, hu5, hq6, hy, hud, hqd, hyd, hd1, hd2,
          h.1.symm, h.2.symm⟩
      · rw [hs, validate_newline u q y d1 d2 hu5 hq6 hy hud hqd hyd hd1 hd2] at h
        exact absurd h (by simp)

lemma validate_true_of_spec {s : List Char} (h : specValid s) :
    validate_nup s = Except.ok true := by
  obtain ⟨u, q, y, d1, d2, hs, hu5, hq6, hy, hud, hqd, hyd, hd1, hd2, h1, h2⟩ := h
  rw [hs, validate_decomposed u q y d1 d2 hu5 hq6 hy hud hqd hyd hd1 hd2]
  simp [h1.symm, h2.symm]

lemma headD_of_format {s : List Char} (hf : nupFormatMatch s = true) :
    ((pySplit '/' s).headD []).length = 12 := by
  obtain ⟨u, q, y, d1, d2, r, rfl, hu5, hq6, hy, hud, hqd, hyd, hd1, hd2, hr⟩ :=
    nupFormatMatch_iff.mp hf
  rw [pySplit_slash u q _ hud hqd (slash_not_mem_tail hyd hd1 hd2 hr)]
  simp [hu5, hq6]

lemma no_precheck_eq (s : List Char) :
    validate_nup_no_precheck s = validate_nup s := by
  unfold validate_nup_no_precheck validate_nup
  by_cases hsn : s = snLit
  · rw [if_pos hsn, if_pos hsn]
  · rw [if_neg hsn, if_neg hsn]
    by_cases h1 : ('.' ∈ s ∨ '/' ∈ s ∨ '-' ∈ s)
    · rw [if_neg (not_not_intro h1), if_neg (not_not_intro h1)]
      by_cases h2 : ('/' ∈ s ∧ ((pySplit '/' s).headD []).length < 11)
      · rw [if_pos h2]
        have hf : nupFormatMatch s = false := by
          cases hfb : nupFormatMatch s with
          | false => rfl
          | true => exact absurd h2.2 (by rw [headD_of_format hfb]; omega)
        rw [if_neg (by simp [hf])]
      · rw [if_neg h2]
    · rw [if_pos h1, if_pos h1]

/-! ### The claims -/

/-- **C1.**  `validate` returns `true` exactly when the input is the
sentinel `"S/N"`, or it matches the full format (5 digits, period, 6 digits,
slash, 4- or 2-digit year, hyphen, 2 digits) and its two trailing digits
equal the check digits `specDV1`/`specDV2` computed over the payload with a
4-digit year ≤ 1999 abbreviated to its last two digits. -/
theorem validate_iff_spec (s : String) :
    validate s = Except.ok true ↔ (s = "S/N" ∨ specValid s.data) := by
  constructor
  · intro h
    rcases spec_of_validate_true h with hsn | hsp
    · exact Or.inl (String.ext hsn)
    · exact Or.inr hsp
  · rintro (rfl | hsp)
    · rfl
    · exact validate_true_of_spec hsp

/-- **C2.**  The validator is a total function: every input string, however
malformed, yields a boolean verdict and no exception escapes. -/
theorem validate_total (s : String) : ∃ b : Bool, validate s = Except.ok b := by
  by_cases hsn : s.data = snLit
  · exact ⟨true, by unfold validate; rw [hsn]; rfl⟩
  · cases hfb : nupFormatMatch s.data with
    | false => exact ⟨false, validate_of_not_format hsn hfb⟩
    | true =>
      obtain ⟨u, q, y, d1, d2, r, hs, hu5, hq6, hy, hud, hqd, hyd, hd1, hd2, hr⟩ :=
        nupFormatMatch_iff.mp hfb
      rcases hr with rfl | rfl
      · exact ⟨_, by
          show validate_nup s.data = _
          rw [hs]
          exact validate_decomposed u q y d1 d2 hu5 hq6 hy hud hqd hyd hd1 hd2⟩
      · exact ⟨false, by
          show validate_nup s.data = _
          rw [hs]
          exact validate_newline u q y d1 d2 hu5 hq6 hy hud hqd hyd hd1 hd2⟩

/-- **C3.**  The spec's concrete example verdicts. -/
theorem validate_spec_examples :
    validate "12345.678901/2023-94" = Except.ok true ∧
    validate "35041.000387/2000-19" = Except.ok true ∧
    validate "12345.678901/2023-99" = Except.ok false :=
  ⟨rfl, rfl, rfl⟩

/-- **C4.**  Legacy-year equivalence: a 4-digit year ≤ 1999 and its 2-digit
abbreviation (its last two characters, `y.drop 2`) validate identically with
the same check-digit pair, because both are checked against the abbreviated
payload. -/
theorem legacy_year_equiv (u q y d : List Char)
    (hu5 : u.length = 5) (hq6 : q.length = 6) (hy4 : y.length = 4)
    (hyv : digitsToNat y ≤ 1999) (hd : d.length = 2)
    (hud : ∀ c ∈ u, isPyDigit c) (hqd : ∀ c ∈ q, isPyDigit c)
    (hyd : ∀ c ∈ y, isPyDigit c) (hdd : ∀ c ∈ d, isPyDigit c) :
    validate_nup (u ++ '.' :: (q ++ '/' :: (y ++ '-' :: d))) =
      validate_nup (u ++ '.' :: (q ++ '/' :: (y.drop 2 ++ '-' :: d))) := by
  obtain ⟨d1, d2, rfl⟩ := List.length_eq_two.mp hd
  have hyd2 : ∀ c ∈ y.drop 2, isPyDigit c := fun c hc =>
    hyd c (List.drop_subset _ _ hc)
  have hl2 : (y.drop 2).length = 2 := by rw [List.length_drop, hy4]
  have hd1 : isPyDigit d1 := hdd d1 (by simp)
  have hd2 : isPyDigit d2 := hdd d2 (by simp)
  rw [validate_decomposed u q y d1 d2 hu5 hq6 (Or.inl hy4) hud hqd hyd hd1 hd2,
    validate_decomposed u q (y.drop 2) d1 d2 hu5 hq6 (Or.inr hl2) hud hqd hyd2 hd1 hd2]
  have hnorm : specNormYear y = y.drop 2 := by
    unfold specNormYear
    rw [if_pos ⟨hy4, hyv⟩, hy4]
  have hnorm2 : specNormYear (y.drop 2) = y.drop 2 := by
    unfold specNormYear
    rw [if_neg (fun h => by rw [h.1] at hl2; omega)]
  rw [specPayload, specPayload, hnorm, hnorm2]

/-- Witness for the legacy-year equivalence at `12345.678901/1999-42`. -/
theorem legacy_year_equiv_witness :
    validate_nup ("12345".data ++ '.' :: ("678901".data ++ '/' ::
      ("1999".data ++ '-' :: "42".data))) =
    validate_nup ("12345".data ++ '.' :: ("678901".data ++ '/' ::
      ("1999".data.drop 2 ++ '-' :: "42".data))) :=
  legacy_year_equiv "12345".data "678901".data "1999".data "42".data
    rfl rfl rfl (by decide) rfl (by decide) (by decide) (by decide) (by decide)

/-- **C5.**  `12345.678901/1999-42` is rejected: the check digits `4` and
`2` do not match the ones computed over the payload with `1999` abbreviated
to `99`. -/
theorem validate_legacy_mismatch :
    validate "12345.678901/1999-42" = Except.ok false := rfl

/-- **C6.**  A non-sentinel input accepted by the validator matches the
format in its entirety: it decomposes exactly (nothing before or after, in
particular no trailing newline), its length is 20 or 18, and its last
character is a decimal digit. -/
theorem validate_true_exact_format (s : String) (hsn : s ≠ "S/N")
    (h : validate s = Except.ok true) :
    ExactFormat s.data ∧ (s.data.length = 20 ∨ s.data.length = 18) ∧
      ∃ c, s.data.getLast? = some c ∧ isPyDigit c := by
  rcases spec_of_validate_true h with he | hsp
  · exact absurd (String.ext he) hsn
  · obtain ⟨u, q, y, d1, d2, hs, hu5, hq6, hy, hud, hqd, hyd, hd1, hd2, -, -⟩ := hsp
    refine ⟨⟨u, q, y, d1, d2, hs, hu5, hq6, hy, hud, hqd, hyd, hd1, hd2⟩, ?_, ?_⟩
    · rcases hy with hy4 | hy2
      · left
        rw [hs]
        simp [hu5, hq6, hy4]
      · right
        rw [hs]
        simp [hu5, hq6, hy2]
    · refine ⟨d2, ?_, hd2⟩
      have h2 : u ++ '.' :: (q ++ '/' :: (y ++ '-' :: d1 :: d2 :: [])) =
          (u ++ '.' :: (q ++ '/' :: (y ++ ['-', d1]))) ++ [d2] := by simp
      rw [hs, h2, List.getLast?_concat]

/-- Witness for the exact-format consequence at `12345.678901/2023-94`. -/
theorem validate_true_exact_format_witness :
    ("12345.678901/2023-94" : String) ≠ "S/N" ∧
    validate "12345.678901/2023-94" = Except.ok true ∧
    (ExactFormat "12345.678901/2023-94".data ∧
      ("12345.678901/2023-94".data.length = 20 ∨
        "12345.678901/2023-94".data.length = 18) ∧
      ∃ c, "12345.678901/2023-94".data.getLast? = some c ∧ isPyDigit c) :=
  ⟨by decide, rfl, validate_true_exact_format "12345.678901/2023-94" (by decide) rfl⟩

/-- **C7.**  The step-3 prefix-length pre-check is redundant: every string
matching the full-format pattern has exactly 12 characters before its first
forward slash, so dropping the pre-check never changes the verdict. -/
theorem precheck_redundant (s : String) :
    validate_nup_no_precheck s.data = validate s ∧
    (nupFormatMatch s.data = false ∨ ((pySplit '/' s.data).headD []).length = 12) := by
  refine ⟨no_precheck_eq s.data, ?_⟩
  cases hfb : nupFormatMatch s.data with
  | false => exact Or.inl rfl
  | true => exact Or.inr (headD_of_format hfb)

/-- **C8.**  The weight lists never run out: an input that reaches the
checksum phase (it matches the format and ends in a digit, hence no trailing
newline) produces a payload of at most 15 digits, so zipping with the 15
DV1 weights, and with the 16 DV2 weights after prepending the first check
digit, drops no digit. -/
theorem weights_cover (s : String) (hfmt : nupFormatMatch s.data = true)
    (hlast : ∃ c, s.data.getLast? = some c ∧ isPyDigit c) :
    ∃ t, computeTreaty s.data = Except.ok t ∧ t.length ≤ 15 ∧
      (t.reverse.zip weights_dv1).length = t.reverse.length ∧
      ∀ c : Char, ((c :: t.reverse).zip weights_dv2).length = t.reverse.length + 1 := by
  obtain ⟨u, q, y, d1, d2, r, hs, hu5, hq6, hy, hud, hqd, hyd, hd1, hd2, hr⟩ :=
    nupFormatMatch_iff.mp hfmt
  rcases hr with rfl | rfl
  · have htl : (u ++ q ++ specNormYear y).length ≤ 15 := by
      rcases specNormYear_length hy with h | h <;>
        simp only [List.length_append, hu5, hq6, h] <;> omega
    refine ⟨u ++ q ++ specNormYear y, ?_, htl, ?_, ?_⟩
    · rw [hs]
      exact computeTreaty_decomposed u q y d1 d2 hu5 hq6 hy hud hqd hyd hd1 hd2
    · rw [List.length_zip]
      simp only [weights_dv1, List.length_range', List.length_reverse]
      omega
    · intro c
      rw [List.length_zip]
      simp only [weights_dv2, List.length_range', List.length_cons, List.length_reverse]
      omega
  · obtain ⟨c, hgl, hcd⟩ := hlast
    have h2 : u ++ '.' :: (q ++ '/' :: (y ++ '-' :: d1 :: d2 :: '\n' :: [])) =
        (u ++ '.' :: (q ++ '/' :: (y ++ ['-', d1, d2]))) ++ ['\n'] := by simp
    rw [hs, h2, List.getLast?_concat] at hgl
    obtain rfl : '\n' = c := Option.some.inj hgl
    exact absurd hcd (by decide)

/-- Witness for the weight coverage at `12345.678901/2023-94`. -/
theorem weights_cover_witness :
    nupFormatMatch "12345.678901/2023-94".data = true ∧
    (∃ c, "12345.678901/2023-94".data.getLast? = some c ∧ isPyDigit c) ∧
    ∃ t, computeTreaty "12345.678901/2023-94".data = Except.ok t ∧ t.length ≤ 15 ∧
      (t.reverse.zip weights_dv1).length = t.reverse.length ∧
      ∀ c : Char, ((c :: t.reverse).zip weights_dv2).length = t.reverse.length + 1 :=
  ⟨rfl, ⟨'4', rfl, rfl⟩, weights_cover "12345.678901/2023-94" rfl ⟨'4', rfl, rfl⟩⟩

/-- Counterexample to the unrestricted reading of the weight-coverage claim:
`re.match` lets `$` match just before a trailing newline, so
`"12345.678901/2023-94\n"` passes the full-format check, yet the payload the
strip-and-drop steps produce for it keeps the first check digit and has 16
digits, one more than the 15 DV1 weights — its zip would drop a digit.  (The
validator never computes that sum: the check-digit extraction hits the
newline first and returns `false`.) -/
theorem weights_cover_counterexample :
    nupFormatMatch "12345.678901/2023-94\n".data = true ∧
    computeTreaty "12345.678901/2023-94\n".data =
      Except.ok "1234567890120239".data ∧
    "1234567890120239".data.length = 16 ∧
    (("1234567890120239".data.reverse).zip weights_dv1).length = 15 ∧
    validate "12345.678901/2023-94\n" = Except.ok false :=
  ⟨rfl, rfl, rfl, rfl, rfl⟩

/-- **C9.**  Any string containing none of the three separators `.`, `/`,
`-` is rejected. -/
theorem no_separator_false (s : String)
    (h : ∀ c ∈ s.data, c ≠ '.' ∧ c ≠ '/' ∧ c ≠ '-') :
    validate s = Except.ok false := by
  have hsn : s.data ≠ snLit := by
    intro he
    have hm : '/' ∈ s.data := by rw [he]; simp [snLit]
    exact (h '/' hm).2.1 rfl
  have hno : ¬ ('.' ∈ s.data ∨ '/' ∈ s.data ∨ '-' ∈ s.data) := by
    rintro (hm | hm | hm)
    · exact (h _ hm).1 rfl
    · exact (h _ hm).2.1 rfl
    · exact (h _ hm).2.2 rfl
  unfold validate validate_nup
  rw [if_neg hsn, if_pos hno]

/-- Witness for separator-free rejection at `12345678901`. -/
theorem no_separator_false_witness :
    (∀ c ∈ "12345678901".data, c ≠ '.' ∧ c ≠ '/' ∧ c ≠ '-') ∧
    validate "12345678901" = Except.ok false :=
  ⟨by decide, no_separator_false "12345678901" (by decide)⟩

/-- **C10.**  The digit checks are not restricted to ASCII: an identifier
written with a fullwidth digit (here `１`, U+FF11) still validates. -/
theorem unicode_digit_accepted :
    validate "１2345.678901/2023-94" = Except.ok true ∧
    '１' ∈ "１2345.678901/2023-94".data ∧ isPyDigit '１' = true ∧ 127 < '１'.toNat :=
  ⟨rfl, by decide, rfl, by decide⟩

end NUP
